import Mathlib

/-!
Shallow embedding of the chess legality / game-state engine of the
`grand-ai-chess-master` repository, translated from the TypeScript sources
`src/utils/chessLogic.ts`, `src/utils/chessRuleEnforcement.ts`,
`src/utils/chessStateAnalysis.ts`, `src/utils/secureOpenaiService.ts` and
`src/utils/openaiChessService.ts`.

Boards are 8x8 arrays of optional pieces (`board[row][col]`, row 0 = rank 8);
out-of-range JavaScript indexing (which yields `undefined`) is modelled by
`Option`-returning cell access.  Squares travel as algebraic-notation strings
(`"e2"`), moves as `"from-to"` strings, exactly as in the source.
-/

namespace GrandChess

/-- Piece kinds, from `src/types/chess.ts` (`PieceType`). -/
inductive PieceType
  | pawn | rook | knight | bishop | queen | king
deriving DecidableEq, Repr

/-- Piece colors, from `src/types/chess.ts` (`PieceColor`). -/
inductive PieceColor
  | white | black
deriving DecidableEq, Repr

/-- A piece, from `src/types/chess.ts` (`ChessPiece`).  The optional
`hasMoved?: boolean` field is modelled as a `Bool` whose default `false`
corresponds to the field being absent/`undefined` (JavaScript falsy). -/
structure ChessPiece where
  type : PieceType
  color : PieceColor
  position : String
  hasMoved : Bool := false
deriving DecidableEq, Repr

/-- A board: `(ChessPiece | null)[][]`. -/
abbrev Board := List (List (Option ChessPiece))

/-- JavaScript `board[row][col]`: out-of-range access yields `undefined`,
modelled as `none`. -/
def cellN (b : Board) (row col : Nat) : Option ChessPiece :=
  (b.getD row []).getD col none

/-- `board[row][col]` for (possibly negative) JavaScript number indices. -/
def cellI (b : Board) (row col : Int) : Option ChessPiece :=
  if 0 ≤ row ∧ 0 ≤ col then cellN b row.toNat col.toNat else none

/-- In-place row assignment `board[row][col] = v` on a board whose rows were
freshly copied (`board.map(row => [...row])`), expressed functionally.
Out-of-range writes never occur at the source's call sites (indices come from
valid squares); `List.set` is a no-op there. -/
def setCell (b : Board) (row col : Nat) (v : Option ChessPiece) : Board :=
  b.set row ((b.getD row []).set col v)

/-- `positionToCoords` from `chessLogic.ts`:
`col = position.charCodeAt(0) - 97`, `row = 8 - parseInt(position[1])`.
All engine call sites pass well-formed squares `[a-h][1-8]`, on which this
`Nat`-valued version agrees with the JavaScript arithmetic. -/
def positionToCoords (position : String) : Nat × Nat :=
  match position.data with
  | c :: d :: _ => (8 - (d.toNat - 48), c.toNat - 97)
  | _ => (0, 0)

/-- `coordsToPosition` from `chessLogic.ts`:
`String.fromCharCode(97 + col) + (8 - row)`. -/
def coordsToPosition (row col : Nat) : String :=
  String.singleton (Char.ofNat (97 + col)) ++ toString (8 - row)

/-- The body of the `while` loop of `isPathClear` (`chessLogic.ts`), stepping
`(currentRow, currentCol)` by `(rowStep, colStep)` until the target square is
reached.  The source loop is only ever entered for aligned in-range squares,
so it runs at most 7 iterations; the `fuel` argument (always started at 8)
makes the recursion structural without changing any reachable behaviour. -/
def pathClearAux (b : Board) (rowStep colStep : Int) (toRow toCol : Int) :
    Int → Int → Nat → Bool
  | _, _, 0 => true
  | curRow, curCol, fuel + 1 =>
    if curRow = toRow ∧ curCol = toCol then true
    else if (cellI b curRow curCol).isSome then false
    else pathClearAux b rowStep colStep toRow toCol (curRow + rowStep) (curCol + colStep) fuel

/-- `isPathClear` from `chessLogic.ts`. -/
def isPathClear (b : Board) (fromRow fromCol toRow toCol : Nat) : Bool :=
  let rowStep : Int := if (toRow : Int) > fromRow then 1 else if (toRow : Int) < fromRow then -1 else 0
  let colStep : Int := if (toCol : Int) > fromCol then 1 else if (toCol : Int) < fromCol then -1 else 0
  pathClearAux b rowStep colStep toRow toCol ((fromRow : Int) + rowStep) ((fromCol : Int) + colStep) 8

/-- `isValidMove` from `chessLogic.ts`: pseudo-legal ("piece-movement") move
test.  Never inspects check state. -/
def isValidMove (b : Board) (fromSq toSq : String) : Bool :=
  let fromRC := positionToCoords fromSq
  let toRC := positionToCoords toSq
  let fromRow := fromRC.1; let fromCol := fromRC.2
  let toRow := toRC.1; let toCol := toRC.2
  match cellN b fromRow fromCol with
  | none => false
  | some piece =>
    let targetPiece := cellN b toRow toCol
    if targetPiece.any (fun t => t.color == piece.color) then false
    else
      let rowDiff := ((toRow : Int) - fromRow).natAbs
      let colDiff := ((toCol : Int) - fromCol).natAbs
      match piece.type with
      | PieceType.pawn =>
        let direction : Int := if piece.color = PieceColor.white then -1 else 1
        let startRow : Nat := if piece.color = PieceColor.white then 6 else 1
        if toCol = fromCol then
          if (toRow : Int) = fromRow + direction && !targetPiece.isSome then true
          else if fromRow = startRow && (toRow : Int) = fromRow + 2 * direction && !targetPiece.isSome then true
          else false
        else if colDiff = 1 && (toRow : Int) = fromRow + direction && targetPiece.isSome then true
        else false
      | PieceType.rook =>
        if rowDiff = 0 || colDiff = 0 then isPathClear b fromRow fromCol toRow toCol
        else false
      | PieceType.bishop =>
        if rowDiff = colDiff then isPathClear b fromRow fromCol toRow toCol
        else false
      | PieceType.queen =>
        if rowDiff = 0 || colDiff = 0 || rowDiff = colDiff then isPathClear b fromRow fromCol toRow toCol
        else false
      | PieceType.knight =>
        (rowDiff = 2 && colDiff = 1) || (rowDiff = 1 && colDiff = 2)
      | PieceType.king =>
        rowDiff ≤ 1 && colDiff ≤ 1

/-- The king-locating double loop shared by `isInCheck` / `findCheckingPieces`
(`chessRuleEnforcement.ts`, `chessLogic.ts`) and `detectCheck`
(`chessStateAnalysis.ts`).  The source `break` only exits the inner column
loop, so the final `kingPosition` is the first-in-row king of the *last* row
containing one; the overwriting `foldl` reproduces that. -/
def findKingSquare (b : Board) (color : PieceColor) : Option (Nat × Nat) :=
  (List.range 8).foldl
    (fun acc row =>
      match (List.range 8).find? (fun col =>
        match cellN b row col with
        | some p => p.type == PieceType.king && p.color == color
        | none => false) with
      | some col => some (row, col)
      | none => acc)
    none

/-- `isInCheck` (`chessRuleEnforcement.ts` lines 35–71; the identical
function also appears in `chessLogic.ts`, and as `detectCheck` in
`chessStateAnalysis.ts`): locate the king, then test whether any opposing
piece has a pseudo-legal move onto its square.  A missing king yields
`false`. -/
def isInCheck (b : Board) (color : PieceColor) : Bool :=
  match findKingSquare b color with
  | none => false
  | some (kr, kc) =>
    let kingPosition := coordsToPosition kr kc
    (List.range 8).any fun row =>
      (List.range 8).any fun col =>
        match cellN b row col with
        | some p => if p.color != color then isValidMove b (coordsToPosition row col) kingPosition else false
        | none => false

/-- `findCheckingPieces` (`chessRuleEnforcement.ts` lines 73–105; identical
copies in `chessLogic.ts` and `chessStateAnalysis.ts`): the squares of every
enemy piece attacking the king. -/
def findCheckingPieces (b : Board) (color : PieceColor) : List String :=
  match findKingSquare b color with
  | none => []
  | some (kr, kc) =>
    let kingPosition := coordsToPosition kr kc
    (List.range 8).flatMap fun row =>
      (List.range 8).filterMap fun col =>
        match cellN b row col with
        | some p =>
          if p.color != color && isValidMove b (coordsToPosition row col) kingPosition
          then some (coordsToPosition row col) else none
        | none => none

/-- `simulateMove` from `chessRuleEnforcement.ts`: copy the rows, then place a
spread-copied piece (`{ ...piece, position: to }`) on the target square and
clear the source square.  The input board is untouched (the only object
written is the fresh copy). -/
def simulateMove (b : Board) (fromSq toSq : String) : Board :=
  let fromRC := positionToCoords fromSq
  let toRC := positionToCoords toSq
  match cellN b fromRC.1 fromRC.2 with
  | some piece =>
    setCell (setCell b toRC.1 toRC.2 (some { piece with position := toSq })) fromRC.1 fromRC.2 none
  | none => b

/-- `isLegalMove` from `chessRuleEnforcement.ts`: pseudo-legal and the
simulated position does not leave `color`'s king in check. -/
def isLegalMove (b : Board) (fromSq toSq : String) (color : PieceColor) : Bool :=
  if !isValidMove b fromSq toSq then false
  else if isInCheck (simulateMove b fromSq toSq) color then false
  else true

/-- `getAllLegalMoves` from `chessRuleEnforcement.ts`: every `"from-to"`
string over the 64×64 square product whose source square holds a piece of
`color` and which passes `isLegalMove`, in row-major order. -/
def getAllLegalMoves (b : Board) (color : PieceColor) : List String :=
  (List.range 8).flatMap fun row =>
    (List.range 8).flatMap fun col =>
      match cellN b row col with
      | some piece =>
        if piece.color == color then
          (List.range 8).flatMap fun toRow =>
            (List.range 8).filterMap fun toCol =>
              if isLegalMove b (coordsToPosition row col) (coordsToPosition toRow toCol) color
              then some (coordsToPosition row col ++ "-" ++ coordsToPosition toRow toCol)
              else none
        else []
      | none => []

/-- `getAllValidMoves` from `chessLogic.ts`: the pseudo-legal move list (no
self-check filtering), in the same row-major order. -/
def getAllValidMoves (b : Board) (color : PieceColor) : List String :=
  (List.range 8).flatMap fun row =>
    (List.range 8).flatMap fun col =>
      match cellN b row col with
      | some piece =>
        if piece.color == color then
          (List.range 8).flatMap fun toRow =>
            (List.range 8).filterMap fun toCol =>
              if isValidMove b (coordsToPosition row col) (coordsToPosition toRow toCol)
              then some (coordsToPosition row col ++ "-" ++ coordsToPosition toRow toCol)
              else none
        else []
      | none => []

/-- `initializeBoard` from `chessLogic.ts`: the standard starting position
(row 0 = rank 8 holds Black's back rank, row 7 holds White's). -/
def initializeBoard : Board :=
  let backRank : List PieceType :=
    [PieceType.rook, PieceType.knight, PieceType.bishop, PieceType.queen,
     PieceType.king, PieceType.bishop, PieceType.knight, PieceType.rook]
  let mkP (t : PieceType) (c : PieceColor) (row col : Nat) : Option ChessPiece :=
    some { type := t, color := c, position := coordsToPosition row col }
  [ (List.range 8).map (fun col => mkP (backRank.getD col PieceType.rook) PieceColor.black 0 col),
    (List.range 8).map (fun col => mkP PieceType.pawn PieceColor.black 1 col),
    (List.range 8).map (fun _ => none),
    (List.range 8).map (fun _ => none),
    (List.range 8).map (fun _ => none),
    (List.range 8).map (fun _ => none),
    (List.range 8).map (fun col => mkP PieceType.pawn PieceColor.white 6 col),
    (List.range 8).map (fun col => mkP (backRank.getD col PieceType.rook) PieceColor.white 7 col) ]

/-- Winner values: `PieceColor | 'draw'` from `GameStateValidation`. -/
inductive GameWinner
  | color (c : PieceColor)
  | draw
deriving DecidableEq, Repr

/-- `color === 'white' ? 'black' : 'white'` (`validateGameState`). -/
def oppositeColor : PieceColor → PieceColor
  | PieceColor.white => PieceColor.black
  | PieceColor.black => PieceColor.white

/-- `GameStateValidation` from `chessRuleEnforcement.ts`; `winner?` is an
`Option` (absent = `undefined`). -/
structure GameStateValidation where
  isInCheck : Bool
  isCheckmate : Bool
  isStalemate : Bool
  checkingPieces : List String
  legalMoves : List String
  gameOver : Bool
  winner : Option GameWinner
deriving DecidableEq, Repr

/-- `validateGameState` from `chessRuleEnforcement.ts` lines 196–233. -/
def validateGameState (b : Board) (color : PieceColor) : GameStateValidation :=
  let inCheck := isInCheck b color
  let checkingPieces := if inCheck then findCheckingPieces b color else []
  let legalMoves := getAllLegalMoves b color
  let isCheckmate := inCheck && legalMoves.length == 0
  let isStalemate := !inCheck && legalMoves.length == 0
  let gameOver := isCheckmate || isStalemate
  let winner : Option GameWinner :=
    if isCheckmate then some (GameWinner.color (if color = PieceColor.white then PieceColor.black else PieceColor.white))
    else if isStalemate then some GameWinner.draw
    else none
  { isInCheck := inCheck, isCheckmate := isCheckmate, isStalemate := isStalemate,
    checkingPieces := checkingPieces, legalMoves := legalMoves, gameOver := gameOver, winner := winner }

/-- Result of `makeMove` from `chessLogic.ts` lines 111–125, together with the
caller's view of the *input* board after the call.  The source shallow-copies
the rows (`board.map(row => [...row])`) but then mutates the moved piece
object in place (`piece.position = to; piece.hasMoved = true`); that object is
still referenced from the input board's source square, so the caller's input
board is observed afterwards as `inputAfter` (assuming, as everywhere in this
code base, that distinct squares hold distinct piece objects). -/
structure MakeMoveResult where
  newBoard : Board
  inputAfter : Board
deriving DecidableEq, Repr

/-- `makeMove` from `chessLogic.ts`: relocate the piece, setting
`position`/`hasMoved` by in-place mutation of the shared piece object. -/
def makeMove (b : Board) (fromSq toSq : String) : MakeMoveResult :=
  let fromRC := positionToCoords fromSq
  let toRC := positionToCoords toSq
  match cellN b fromRC.1 fromRC.2 with
  | some piece =>
    let mutated := { piece with position := toSq, hasMoved := true }
    { newBoard := setCell (setCell b toRC.1 toRC.2 (some mutated)) fromRC.1 fromRC.2 none,
      inputAfter := setCell b fromRC.1 fromRC.2 (some mutated) }
  | none => { newBoard := b, inputAfter := b }

/-- `isCheckmate` from `chessLogic.ts` (exported via the module also embedded
in `secureOpenaiService.ts`): in check and **pseudo-legal** move list empty. -/
def isCheckmate (b : Board) (color : PieceColor) : Bool :=
  if !isInCheck b color then false
  else (getAllValidMoves b color).length == 0

/-- `isStalemate` from `chessLogic.ts`: not in check and **pseudo-legal**
move list empty. -/
def isStalemate (b : Board) (color : PieceColor) : Bool :=
  if isInCheck b color then false
  else (getAllValidMoves b color).length == 0

/-- Castling side, from `canCastle`'s `side` parameter. -/
inductive CastleSide
  | kingside | queenside
deriving DecidableEq, Repr

/-- `canCastle` from `chessLogic.ts` (lines 681–696 of the module embedded in
`secureOpenaiService.ts`).  Checks only: a king-typed, unmoved piece on
`e1`/`e8`, a rook-typed, unmoved piece on the relevant corner, and emptiness
of the squares strictly between them.  (JavaScript `king.hasMoved` is falsy
when the optional field is absent.) -/
def canCastle (b : Board) (color : PieceColor) (side : CastleSide) : Bool :=
  let row := if color = PieceColor.white then 7 else 0
  match cellN b row 4 with
  | none => false
  | some king =>
    if king.type != PieceType.king || king.hasMoved then false
    else
      match side with
      | CastleSide.kingside =>
        match cellN b row 7 with
        | none => false
        | some rook =>
          if rook.type != PieceType.rook || rook.hasMoved then false
          else !(cellN b row 5).isSome && !(cellN b row 6).isSome
      | CastleSide.queenside =>
        match cellN b row 0 with
        | none => false
        | some rook =>
          if rook.type != PieceType.rook || rook.hasMoved then false
          else !(cellN b row 1).isSome && !(cellN b row 2).isSome && !(cellN b row 3).isSome

/-- The inline check-escape simulation block of `calculateUrgentMoves`
(`chessStateAnalysis.ts` lines 240–246): copy the rows, move the piece
*object* (without updating its `position` field), clear the source square. -/
def urgentTestBoard (b : Board) (fromSq toSq : String) : Board :=
  let fromRC := positionToCoords fromSq
  let toRC := positionToCoords toSq
  setCell (setCell b toRC.1 toRC.2 (cellN b fromRC.1 fromRC.2)) fromRC.1 fromRC.2 none

/-- `calculateUrgentMoves` from `chessStateAnalysis.ts` lines 220–279, as
called by `analyzeTacticalSituation` (which passes `detectCheck`'s result —
`detectCheck` is textually identical to `isInCheck` — and the checking-piece
list, which the function ignores).  In check: pseudo-legal moves whose
simulation escapes check.  Not in check: all pseudo-legal moves. -/
def calculateUrgentMoves (b : Board) (color : PieceColor)
    (isInCheckFlag : Bool) (_checkingPieces : List String) : List String :=
  if isInCheckFlag then
    (List.range 8).flatMap fun row =>
      (List.range 8).flatMap fun col =>
        match cellN b row col with
        | some piece =>
          if piece.color == color then
            (List.range 8).flatMap fun toRow =>
              (List.range 8).filterMap fun toCol =>
                if isValidMove b (coordsToPosition row col) (coordsToPosition toRow toCol) then
                  if !isInCheck (urgentTestBoard b (coordsToPosition row col) (coordsToPosition toRow toCol)) color
                  then some (coordsToPosition row col ++ "-" ++ coordsToPosition toRow toCol)
                  else none
                else none
          else []
        | none => []
  else
    (List.range 8).flatMap fun row =>
      (List.range 8).flatMap fun col =>
        match cellN b row col with
        | some piece =>
          if piece.color == color then
            (List.range 8).flatMap fun toRow =>
              (List.range 8).filterMap fun toCol =>
                if isValidMove b (coordsToPosition row col) (coordsToPosition toRow toCol)
                then some (coordsToPosition row col ++ "-" ++ coordsToPosition toRow toCol)
                else none
          else []
        | none => []

/-- A `Move` record from `src/types/chess.ts`.  The `timestamp: Date.now()`
field (wall clock) is not modelled; no claim depends on it. -/
structure Move where
  fromSq : String
  toSq : String
  piece : ChessPiece
  captured : Option ChessPiece
  notationStr : String
deriving DecidableEq, Repr

/-- JavaScript `s.split('-')` (single-character separator): accumulate the
current component, emitting it at each `'-'` and at the end of the string. -/
def splitDashAux : List Char → List Char → List String
  | [], acc => [String.mk acc.reverse]
  | c :: rest, acc =>
    if c = '-' then String.mk acc.reverse :: splitDashAux rest []
    else splitDashAux rest (c :: acc)

/-- JavaScript `notation.split('-')`. -/
def jsSplitDash (s : String) : List String :=
  splitDashAux s.data []

/-- The regular-expression test `/^[a-h][1-8]$/.test(s)`. -/
def squareNotationValid (s : String) : Bool :=
  match s.data with
  | [c, d] => decide ('a' ≤ c ∧ c ≤ 'h') && decide ('1' ≤ d ∧ d ≤ '8')
  | _ => false

namespace SecureOpenaiService

/-- The `createMoveFromNotation` function of `secureOpenaiService.ts` lines 241–272:
split on `'-'`, demand exactly two components, regex-validate both squares,
re-check the ranges (dead code after the regex; the `< 0` comparisons cannot
fire and are unrepresentable in `Nat`), then look up the piece. -/
def createMoveFromNotationString (nstr : String) (b : Board) : Option Move :=
  let parts := jsSplitDash nstr
  if parts.length ≠ 2 then none
  else
    let f := parts.getD 0 ""
    let t := parts.getD 1 ""
    if !squareNotationValid f || !squareNotationValid t then none
    else
      let fromCol := (f.data.headD ' ').toNat - 97
      let fromRow := 8 - ((f.data.getD 1 ' ').toNat - 48)
      let toCol := (t.data.headD ' ').toNat - 97
      let toRow := 8 - ((t.data.getD 1 ' ').toNat - 48)
      if fromRow > 7 || fromCol > 7 || toRow > 7 || toCol > 7 then none
      else
        match cellN b fromRow fromCol with
        | none => none
        | some piece =>
          some { fromSq := f, toSq := t, piece := piece,
                 captured := cellN b toRow toCol, notationStr := nstr }

end SecureOpenaiService

/-- JavaScript `board[row]?.[col]` where the column index may be `NaN`
(modelled as `none`): any out-of-range or `NaN` index yields `undefined`. -/
def jsIndex2 (b : Board) (row : Int) (col : Option Int) : Option ChessPiece :=
  match col with
  | some c => cellI b row c
  | none => none

/-- `8 - parseInt(s[1])` as used by `openaiChessService.ts`'s
`createMoveFromNotation`: `NaN` (missing/non-digit character) is `none`. -/
def eightMinusDigit (s : String) : Option Int :=
  match s.data with
  | _ :: d :: _ => if decide ('0' ≤ d ∧ d ≤ '9') then some ((8 : Int) - ((d.toNat : Int) - 48)) else none
  | _ => none

namespace OpenaiChessService

/-- The `createMoveFromNotation` function of `openaiChessService.ts` lines 122–142.
Note the source as written: it only rejects missing/empty components
(`if (!from || !to) return null`), performs **no** regex validation, and
assigns `[fromRow, fromCol] = [from.charCodeAt(0) - 97, 8 - parseInt(from[1])]`
— i.e. the first destructured name (used as the row index) receives the
file-letter coordinate, transposing the board access. -/
def createMoveFromNotationString (nstr : String) (b : Board) : Option Move :=
  match jsSplitDash nstr with
  | f :: t :: _ =>
    if f = "" || t = "" then none
    else
      let fromRow : Int := ((f.data.headD ' ').toNat : Int) - 97
      let fromCol : Option Int := eightMinusDigit f
      let toRow : Int := ((t.data.headD ' ').toNat : Int) - 97
      let toCol : Option Int := eightMinusDigit t
      match jsIndex2 b fromRow fromCol with
      | none => none
      | some piece =>
        some { fromSq := f, toSq := t, piece := piece,
               captured := jsIndex2 b toRow toCol, notationStr := nstr }
  | _ => none

end OpenaiChessService

/-! ### Concrete test positions used by counterexamples and witnesses -/

/-- An empty rank. -/
def emptyRow : List (Option ChessPiece) := List.replicate 8 none

/-- Back-rank mate: White king h1, Black rooks g8 and h8 (Black king a8).
White is in check and every White pseudo-legal move leaves the king in
check. -/
def mateBoard : Board :=
  [ [some { type := PieceType.king, color := PieceColor.black, position := "a8" },
     none, none, none, none, none,
     some { type := PieceType.rook, color := PieceColor.black, position := "g8" },
     some { type := PieceType.rook, color := PieceColor.black, position := "h8" }],
    emptyRow, emptyRow, emptyRow, emptyRow, emptyRow, emptyRow,
    [none, none, none, none, none, none, none,
     some { type := PieceType.king, color := PieceColor.white, position := "h1" }] ]

/-- White king a1 with a Black rook on b8 (Black king h8): White is *not* in
check, but the pseudo-legal king moves to b1 and b2 move into the rook's
file. -/
def notInCheckBoard : Board :=
  [ [none,
     some { type := PieceType.rook, color := PieceColor.black, position := "b8" },
     none, none, none, none, none,
     some { type := PieceType.king, color := PieceColor.black, position := "h8" }],
    emptyRow, emptyRow, emptyRow, emptyRow, emptyRow, emptyRow,
    [some { type := PieceType.king, color := PieceColor.white, position := "a1" },
     none, none, none, none, none, none, none] ]

/-- White king e1 and rooks a1/h1, none moved, intervening squares empty:
both castling sides are available. -/
def castleBoard : Board :=
  [ emptyRow, emptyRow, emptyRow, emptyRow, emptyRow, emptyRow, emptyRow,
    [some { type := PieceType.rook, color := PieceColor.white, position := "a1" },
     none, none, none,
     some { type := PieceType.king, color := PieceColor.white, position := "e1" },
     none, none,
     some { type := PieceType.rook, color := PieceColor.white, position := "h1" }] ]

/-! ### Proof infrastructure -/

/-- The check-relevant projection of a piece: `isValidMove`, `isInCheck` and
the whole legality layer read only `type` and `color`, never `position` or
`hasMoved`. -/
def pieceShape (p : ChessPiece) : PieceType × PieceColor :=
  (p.type, p.color)

/-- Two boards agree square-by-square on piece type and color. -/
def ShapeEq (b1 b2 : Board) : Prop :=
  ∀ r c : Nat, (cellN b1 r c).map pieceShape = (cellN b2 r c).map pieceShape

/-- Decoder for `"from-to"` move strings, used only to prove injectivity of
the move-string encoding. -/
def decodeMove (s : String) : (Nat × Nat) × (Nat × Nat) :=
  (positionToCoords s, positionToCoords (String.mk (s.data.drop 3)))

lemma decodeMove_encode_all : ((List.range 8).all fun fr => (List.range 8).all fun fc =>
    (List.range 8).all fun tr => (List.range 8).all fun tc =>
    decide (decodeMove (coordsToPosition fr fc ++ "-" ++ coordsToPosition tr tc) =
      ((fr, fc), (tr, tc)))) = true := by
  decide

lemma decodeMove_encode : ∀ fr < 8, ∀ fc < 8, ∀ tr < 8, ∀ tc < 8,
    decodeMove (coordsToPosition fr fc ++ "-" ++ coordsToPosition tr tc) = ((fr, fc), (tr, tc)) := by
  intro fr h1 fc h2 tr h3 tc h4
  have h := decodeMove_encode_all
  simp only [List.all_eq_true, List.mem_range, decide_eq_true_eq] at h
  exact h fr h1 fc h2 tr h3 tc h4

lemma moveString_inj {fr fc tr tc fr' fc' tr' tc' : Nat}
    (h1 : fr < 8) (h2 : fc < 8) (h3 : tr < 8) (h4 : tc < 8)
    (h5 : fr' < 8) (h6 : fc' < 8) (h7 : tr' < 8) (h8 : tc' < 8)
    (h : coordsToPosition fr fc ++ "-" ++ coordsToPosition tr tc =
         coordsToPosition fr' fc' ++ "-" ++ coordsToPosition tr' tc') :
    fr = fr' ∧ fc = fc' ∧ tr = tr' ∧ tc = tc' := by
  have hd := congrArg decodeMove h
  rw [decodeMove_encode fr h1 fc h2 tr h3 tc h4,
      decodeMove_encode fr' h5 fc' h6 tr' h7 tc' h8] at hd
  simp only [Prod.mk.injEq] at hd
  exact ⟨hd.1.1, hd.1.2, hd.2.1, hd.2.2⟩

/-- Membership in the row-major 64×64 move-generation loop shared by
`getAllLegalMoves`, `getAllValidMoves` and `calculateUrgentMoves`, for an
arbitrary filter `keep`. -/
lemma mem_moves_loops (b : Board) (color : PieceColor) (keep : String → String → Bool) (s : String) :
    (s ∈ (List.range 8).flatMap fun row =>
      (List.range 8).flatMap fun col =>
        match cellN b row col with
        | some piece =>
          if piece.color == color then
            (List.range 8).flatMap fun toRow =>
              (List.range 8).filterMap fun toCol =>
                if keep (coordsToPosition row col) (coordsToPosition toRow toCol)
                then some (coordsToPosition row col ++ "-" ++ coordsToPosition toRow toCol)
                else none
          else []
        | none => []) ↔
    (∃ fr fc tr tc : Nat, fr < 8 ∧ fc < 8 ∧ tr < 8 ∧ tc < 8 ∧
      (∃ p, cellN b fr fc = some p ∧ p.color = color) ∧
      keep (coordsToPosition fr fc) (coordsToPosition tr tc) = true ∧
      s = coordsToPosition fr fc ++ "-" ++ coordsToPosition tr tc) := by
  constructor
  · intro hmem
    simp only [List.mem_flatMap, List.mem_range] at hmem
    obtain ⟨row, hrow, col, hcol, hs⟩ := hmem
    split at hs
    · rename_i p hcell
      by_cases hc : (p.color == color) = true
      · rw [if_pos hc] at hs
        simp only [List.mem_flatMap, List.mem_filterMap, List.mem_range] at hs
        obtain ⟨tr, htr, tc, htc, heq⟩ := hs
        by_cases hk : keep (coordsToPosition row col) (coordsToPosition tr tc) = true
        · rw [if_pos hk] at heq
          exact ⟨row, col, tr, tc, hrow, hcol, htr, htc,
            ⟨p, hcell, by simpa using hc⟩, hk, ((Option.some.injEq _ _).mp heq).symm⟩
        · rw [if_neg hk] at heq
          simp at heq
      · rw [if_neg hc] at hs
        simp at hs
    · simp at hs
  · rintro ⟨fr, fc, tr, tc, hfr, hfc, htr, htc, ⟨p, hp, hpc⟩, hk, rfl⟩
    simp only [List.mem_flatMap, List.mem_range]
    refine ⟨fr, hfr, fc, hfc, ?_⟩
    split
    · rename_i p' hcell
      have hpp : p' = p := by
        rw [hp] at hcell
        exact ((Option.some.injEq _ _).mp hcell).symm
      subst hpp
      rw [if_pos (by simpa using hpc)]
      simp only [List.mem_flatMap, List.mem_filterMap, List.mem_range]
      exact ⟨tr, htr, tc, htc, by rw [if_pos hk]⟩
    · rename_i hcell
      rw [hp] at hcell
      simp at hcell

lemma cellN_eq_getElem? (b : Board) (r c : Nat) :
    cellN b r c = ((b.getD r [])[c]?).getD none := by
  simp [cellN, List.getD_eq_getElem?_getD]

lemma cellN_some_bounds {b : Board} {r c : Nat} {p : ChessPiece}
    (h : cellN b r c = some p) : r < b.length ∧ c < (b.getD r []).length := by
  rw [cellN_eq_getElem?] at h
  refine ⟨?_, ?_⟩
  · by_contra hr
    push_neg at hr
    have hrow : b.getD r [] = [] := by
      rw [List.getD_eq_getElem?_getD, List.getElem?_eq_none hr]
      rfl
    rw [hrow] at h
    simp at h
  · by_contra hc
    push_neg at hc
    rw [List.getElem?_eq_none hc] at h
    simp at h

lemma rowAt_setCell_ne (b : Board) (row col r : Nat) (v : Option ChessPiece)
    (h : r ≠ row) : (setCell b row col v).getD r [] = b.getD r [] := by
  simp only [setCell, List.getD_eq_getElem?_getD]
  rw [List.getElem?_set_ne (fun hx => h hx.symm)]

lemma cellN_setCell_ne (b : Board) (row col r c : Nat) (v : Option ChessPiece)
    (h : ¬(r = row ∧ c = col)) :
    cellN (setCell b row col v) r c = cellN b r c := by
  by_cases hr : r = row
  · subst hr
    have hc : c ≠ col := fun hx => h ⟨rfl, hx⟩
    by_cases hlt : r < b.length
    · rw [cellN_eq_getElem?, cellN_eq_getElem?]
      have hrow : (setCell b r col v).getD r [] = (b.getD r []).set col v := by
        simp only [setCell, List.getD_eq_getElem?_getD]
        rw [List.getElem?_set_eq_of_lt _ hlt]
        rfl
      rw [hrow, List.getElem?_set_ne (fun hx => hc hx.symm)]
    · have hset : setCell b r col v = b := by
        simp only [setCell]
        exact List.set_eq_of_length_le (by omega)
      rw [hset]
  · rw [cellN_eq_getElem?, cellN_eq_getElem?, rowAt_setCell_ne b row col r v hr]

lemma cellN_setCell_self (b : Board) (row col : Nat) (v : Option ChessPiece)
    (h1 : row < b.length) (h2 : col < (b.getD row []).length) :
    cellN (setCell b row col v) row col = v := by
  rw [cellN_eq_getElem?]
  have hrow : (setCell b row col v).getD row [] = (b.getD row []).set col v := by
    simp only [setCell, List.getD_eq_getElem?_getD]
    rw [List.getElem?_set_eq_of_lt _ h1]
    rfl
  rw [hrow, List.getElem?_set_eq_of_lt _ (by simpa using h2)]
  rfl

lemma length_setCell (b : Board) (row col : Nat) (v : Option ChessPiece) :
    (setCell b row col v).length = b.length := by
  simp [setCell]

lemma rowAt_setCell (b : Board) (row col r : Nat) (v : Option ChessPiece) :
    (setCell b row col v).getD r []
      = if r = row ∧ row < b.length then (b.getD row []).set col v else b.getD r [] := by
  by_cases hr : r = row
  · subst hr
    by_cases hlt : r < b.length
    · rw [if_pos ⟨rfl, hlt⟩]
      simp only [setCell, List.getD_eq_getElem?_getD]
      rw [List.getElem?_set_eq_of_lt _ hlt]
      rfl
    · rw [if_neg (fun hx => hlt hx.2)]
      simp only [setCell]
      rw [List.set_eq_of_length_le (by omega)]
  · rw [if_neg (fun hx => hr hx.1)]
    exact rowAt_setCell_ne b row col r v hr

lemma rowLen_setCell (b : Board) (row col r : Nat) (v : Option ChessPiece) :
    ((setCell b row col v).getD r []).length = (b.getD r []).length := by
  rw [rowAt_setCell]
  by_cases hx : r = row ∧ row < b.length
  · rw [if_pos hx, List.length_set, hx.1]
  · rw [if_neg hx]

lemma cellN_setCell_cases (b : Board) (row col r c : Nat) (v : Option ChessPiece) :
    cellN (setCell b row col v) r c
      = if r = row ∧ c = col ∧ row < b.length ∧ col < (b.getD row []).length then v
        else cellN b r c := by
  by_cases hmain : r = row ∧ c = col ∧ row < b.length ∧ col < (b.getD row []).length
  · obtain ⟨e1, e2, hb1, hb2⟩ := hmain
    subst e1; subst e2
    rw [if_pos ⟨rfl, rfl, hb1, hb2⟩]
    exact cellN_setCell_self b r c v hb1 hb2
  · rw [if_neg hmain]
    by_cases hrc : r = row ∧ c = col
    · obtain ⟨e1, e2⟩ := hrc
      subst e1; subst e2
      by_cases hr : r < b.length
      · have hc : ¬ c < (b.getD r []).length := fun hcc => hmain ⟨rfl, rfl, hr, hcc⟩
        rw [cellN_eq_getElem?, cellN_eq_getElem?, rowAt_setCell, if_pos ⟨rfl, hr⟩,
          List.set_eq_of_length_le (by omega)]
      · have hid : setCell b r c v = b := by
          simp only [setCell]
          exact List.set_eq_of_length_le (by omega)
        rw [hid]
    · exact cellN_setCell_ne b row col r c v hrc

lemma flatMapCongr {α β : Type} {l : List α} {f g : α → List β}
    (h : ∀ a ∈ l, f a = g a) : l.flatMap f = l.flatMap g := by
  induction l with
  | nil => rfl
  | cons x xs ih =>
    simp only [List.flatMap_cons]
    rw [h x (List.mem_cons_self x xs), ih (fun a ha => h a (List.mem_cons_of_mem x ha))]

lemma filterMapCongr {α β : Type} {l : List α} {f g : α → Option β}
    (h : ∀ a ∈ l, f a = g a) : l.filterMap f = l.filterMap g := by
  induction l with
  | nil => rfl
  | cons x xs ih =>
    simp only [List.filterMap_cons]
    rw [h x (List.mem_cons_self x xs)]
    have ih' := ih (fun a ha => h a (List.mem_cons_of_mem x ha))
    cases g x <;> simp [ih']

lemma anyCongr {α : Type} {l : List α} {p q : α → Bool}
    (h : ∀ a ∈ l, p a = q a) : l.any p = l.any q := by
  induction l with
  | nil => rfl
  | cons x xs ih =>
    simp only [List.any_cons]
    rw [h x (List.mem_cons_self x xs), ih (fun a ha => h a (List.mem_cons_of_mem x ha))]

lemma findCongr {α : Type} {l : List α} {p q : α → Bool}
    (h : ∀ a ∈ l, p a = q a) : l.find? p = l.find? q := by
  induction l with
  | nil => rfl
  | cons x xs ih =>
    simp only [List.find?]
    rw [h x (List.mem_cons_self x xs)]
    have ih' := ih (fun a ha => h a (List.mem_cons_of_mem x ha))
    cases q x <;> simp [ih']

lemma pathClearAux_shape {b1 b2 : Board} (h : ShapeEq b1 b2) (rs cs tr tc : Int) :
    ∀ (fuel : Nat) (curRow curCol : Int),
      pathClearAux b1 rs cs tr tc curRow curCol fuel
        = pathClearAux b2 rs cs tr tc curRow curCol fuel := by
  intro fuel
  induction fuel with
  | zero => intro _ _; rfl
  | succ n ih =>
    intro curRow curCol
    simp only [pathClearAux]
    have hsome : (cellI b1 curRow curCol).isSome = (cellI b2 curRow curCol).isSome := by
      simp only [cellI]
      by_cases hge : 0 ≤ curRow ∧ 0 ≤ curCol
      · rw [if_pos hge, if_pos hge]
        have hsh := h curRow.toNat curCol.toNat
        rcases ea : cellN b1 curRow.toNat curCol.toNat with _ | pa
        · rcases eb : cellN b2 curRow.toNat curCol.toNat with _ | pb
          · rfl
          · rw [ea, eb] at hsh
            simp [pieceShape] at hsh
        · rcases eb : cellN b2 curRow.toNat curCol.toNat with _ | pb
          · rw [ea, eb] at hsh
            simp [pieceShape] at hsh
          · rfl
      · rw [if_neg hge, if_neg hge]
    rw [hsome, ih]

lemma isPathClear_shape {b1 b2 : Board} (h : ShapeEq b1 b2) (fr fc tr tc : Nat) :
    isPathClear b1 fr fc tr tc = isPathClear b2 fr fc tr tc := by
  simp only [isPathClear]
  exact pathClearAux_shape h _ _ _ _ 8 _ _

lemma isValidMove_shape {b1 b2 : Board} (h : ShapeEq b1 b2) (f t : String) :
    isValidMove b1 f t = isValidMove b2 f t := by
  simp only [isValidMove]
  have hft := h (positionToCoords f).1 (positionToCoords f).2
  have htt := h (positionToCoords t).1 (positionToCoords t).2
  rcases e1 : cellN b1 (positionToCoords f).1 (positionToCoords f).2 with _ | p1
  · rcases e2 : cellN b2 (positionToCoords f).1 (positionToCoords f).2 with _ | p2
    · rfl
    · rw [e1, e2] at hft
      simp [pieceShape] at hft
  · rcases e2 : cellN b2 (positionToCoords f).1 (positionToCoords f).2 with _ | p2
    · rw [e1, e2] at hft
      simp [pieceShape] at hft
    · rw [e1, e2] at hft
      simp only [Option.map_some', Option.some.injEq, pieceShape, Prod.mk.injEq] at hft
      simp only []
      rcases e3 : cellN b1 (positionToCoords t).1 (positionToCoords t).2 with _ | q1
      · rcases e4 : cellN b2 (positionToCoords t).1 (positionToCoords t).2 with _ | q2
        · simp only [Option.any_none, Option.isSome_none]
          rw [hft.1, hft.2, isPathClear_shape h]
        · rw [e3, e4] at htt
          simp [pieceShape] at htt
      · rcases e4 : cellN b2 (positionToCoords t).1 (positionToCoords t).2 with _ | q2
        · rw [e3, e4] at htt
          simp [pieceShape] at htt
        · rw [e3, e4] at htt
          simp only [Option.map_some', Option.some.injEq, pieceShape, Prod.mk.injEq] at htt
          simp only [Option.any_some, Option.isSome_some]
          rw [hft.1, hft.2, htt.2, isPathClear_shape h]

lemma findKingSquare_shape {b1 b2 : Board} (h : ShapeEq b1 b2) (color : PieceColor) :
    findKingSquare b1 color = findKingSquare b2 color := by
  simp only [findKingSquare]
  have hpred : ∀ row : Nat,
      ((List.range 8).find? fun col =>
        match cellN b1 row col with
        | some p => p.type == PieceType.king && p.color == color
        | none => false)
      = ((List.range 8).find? fun col =>
        match cellN b2 row col with
        | some p => p.type == PieceType.king && p.color == color
        | none => false) := by
    intro row
    apply findCongr
    intro col _
    have hsh := h row col
    rcases ea : cellN b1 row col with _ | pa
    · rcases eb : cellN b2 row col with _ | pb
      · rfl
      · rw [ea, eb] at hsh
        simp [pieceShape] at hsh
    · rcases eb : cellN b2 row col with _ | pb
      · rw [ea, eb] at hsh
        simp [pieceShape] at hsh
      · rw [ea, eb] at hsh
        simp only [Option.map_some', Option.some.injEq, pieceShape, Prod.mk.injEq] at hsh
        simp only []
        rw [hsh.1, hsh.2]
  have hfold : ∀ (l : List Nat) (acc : Option (Nat × Nat)),
      (l.foldl (fun acc row =>
        match (List.range 8).find? (fun col =>
          match cellN b1 row col with
          | some p => p.type == PieceType.king && p.color == color
          | none => false) with
        | some col => some (row, col)
        | none => acc) acc)
      = (l.foldl (fun acc row =>
        match (List.range 8).find? (fun col =>
          match cellN b2 row col with
          | some p => p.type == PieceType.king && p.color == color
          | none => false) with
        | some col => some (row, col)
        | none => acc) acc) := by
    intro l
    induction l with
    | nil => intro _; rfl
    | cons x xs ih =>
      intro acc
      simp only [List.foldl_cons]
      rw [hpred x]
      exact ih _
  exact hfold _ _

lemma isInCheck_shape {b1 b2 : Board} (h : ShapeEq b1 b2) (color : PieceColor) :
    isInCheck b1 color = isInCheck b2 color := by
  simp only [isInCheck]
  rw [findKingSquare_shape h color]
  rcases hk : findKingSquare b2 color with _ | ⟨kr, kc⟩
  · rfl
  · apply anyCongr
    intro row _
    apply anyCongr
    intro col _
    have hsh := h row col
    rcases ea : cellN b1 row col with _ | pa
    · rcases eb : cellN b2 row col with _ | pb
      · rfl
      · rw [ea, eb] at hsh
        simp [pieceShape] at hsh
    · rcases eb : cellN b2 row col with _ | pb
      · rw [ea, eb] at hsh
        simp [pieceShape] at hsh
      · rw [ea, eb] at hsh
        simp only [Option.map_some', Option.some.injEq, pieceShape, Prod.mk.injEq] at hsh
        simp only []
        rw [hsh.2, isValidMove_shape h]

lemma isValidMove_from_some {b : Board} {f t : String} (h : isValidMove b f t = true) :
    ∃ p, cellN b (positionToCoords f).1 (positionToCoords f).2 = some p := by
  simp only [isValidMove] at h
  split at h
  · simp at h
  · rename_i p e
    exact ⟨p, e⟩

lemma shapeEq_simulate_urgentTest (b : Board) (f t : String) (p : ChessPiece)
    (hp : cellN b (positionToCoords f).1 (positionToCoords f).2 = some p) :
    ShapeEq (simulateMove b f t) (urgentTestBoard b f t) := by
  have e1 : simulateMove b f t
      = setCell (setCell b (positionToCoords t).1 (positionToCoords t).2
          (some { p with position := t })) (positionToCoords f).1 (positionToCoords f).2 none := by
    simp only [simulateMove]
    rw [hp]
  have e2 : urgentTestBoard b f t
      = setCell (setCell b (positionToCoords t).1 (positionToCoords t).2 (some p))
          (positionToCoords f).1 (positionToCoords f).2 none := by
    simp only [urgentTestBoard]
    rw [hp]
  have key : ∀ (v : Option ChessPiece) (r c : Nat),
      cellN (setCell (setCell b (positionToCoords t).1 (positionToCoords t).2 v)
          (positionToCoords f).1 (positionToCoords f).2 none) r c
        = if r = (positionToCoords f).1 ∧ c = (positionToCoords f).2 ∧
              (positionToCoords f).1 < b.length ∧
              (positionToCoords f).2 < (b.getD (positionToCoords f).1 []).length then none
          else if r = (positionToCoords t).1 ∧ c = (positionToCoords t).2 ∧
              (positionToCoords t).1 < b.length ∧
              (positionToCoords t).2 < (b.getD (positionToCoords t).1 []).length then v
          else cellN b r c := by
    intro v r c
    rw [cellN_setCell_cases, length_setCell, rowLen_setCell, cellN_setCell_cases]
  rw [e1, e2]
  intro r c
  rw [key, key]
  by_cases h1 : r = (positionToCoords f).1 ∧ c = (positionToCoords f).2 ∧
      (positionToCoords f).1 < b.length ∧
      (positionToCoords f).2 < (b.getD (positionToCoords f).1 []).length
  · rw [if_pos h1, if_pos h1]
  · rw [if_neg h1, if_neg h1]
    by_cases h2 : r = (positionToCoords t).1 ∧ c = (positionToCoords t).2 ∧
        (positionToCoords t).1 < b.length ∧
        (positionToCoords t).2 < (b.getD (positionToCoords t).1 []).length
    · rw [if_pos h2, if_pos h2]
      rfl
    · rw [if_neg h2, if_neg h2]

lemma urgent_loops_eq_legal (b : Board) (color : PieceColor) :
    ((List.range 8).flatMap fun row =>
      (List.range 8).flatMap fun col =>
        match cellN b row col with
        | some piece =>
          if piece.color == color then
            (List.range 8).flatMap fun toRow =>
              (List.range 8).filterMap fun toCol =>
                if isValidMove b (coordsToPosition row col) (coordsToPosition toRow toCol) then
                  if !isInCheck (urgentTestBoard b (coordsToPosition row col) (coordsToPosition toRow toCol)) color
                  then some (coordsToPosition row col ++ "-" ++ coordsToPosition toRow toCol)
                  else none
                else none
          else []
        | none => []) = getAllLegalMoves b color := by
  simp only [getAllLegalMoves]
  apply flatMapCongr
  intro row _
  apply flatMapCongr
  intro col _
  rcases e : cellN b row col with _ | p
  · rfl
  · simp only []
    by_cases hc : (p.color == color) = true
    · rw [if_pos hc, if_pos hc]
      apply flatMapCongr
      intro toRow _
      apply filterMapCongr
      intro toCol _
      by_cases hv : isValidMove b (coordsToPosition row col) (coordsToPosition toRow toCol) = true
      · rw [if_pos hv]
        obtain ⟨q, hq⟩ := isValidMove_from_some hv
        have hic := isInCheck_shape
          (shapeEq_simulate_urgentTest b (coordsToPosition row col) (coordsToPosition toRow toCol) q hq) color
        cases hs : isInCheck (simulateMove b (coordsToPosition row col) (coordsToPosition toRow toCol)) color
        · have hut : isInCheck (urgentTestBoard b (coordsToPosition row col) (coordsToPosition toRow toCol)) color = false :=
            hic.symm.trans hs
          rw [hut]
          simp [isLegalMove, hv, hs]
        · have hut : isInCheck (urgentTestBoard b (coordsToPosition row col) (coordsToPosition toRow toCol)) color = true :=
            hic.symm.trans hs
          rw [hut]
          simp [isLegalMove, hv, hs]
      · rw [if_neg hv]
        have hl : isLegalMove b (coordsToPosition row col) (coordsToPosition toRow toCol) color = false := by
          simp only [isLegalMove]
          rw [Bool.not_eq_true] at hv
          rw [hv]
          simp
        rw [hl]
        simp
    · rw [if_neg hc, if_neg hc]

/-! ### Claim theorems -/

/-- C7: from the standard starting board produced by `initializeBoard`,
`getAllLegalMoves` for White returns a list of exactly 20 moves. -/
theorem C7_initial_position_twenty_legal_moves :
    (getAllLegalMoves initializeBoard PieceColor.white).length = 20 := by
  decide

/-- C2: for every board and color, `validateGameState` satisfies
`isCheckmate = inCheck ∧ no legal moves`, `isStalemate = ¬inCheck ∧ no legal
moves`, `gameOver = isCheckmate ∨ isStalemate`, checkmate and stalemate are
never both true, and `winner` is the opposite color on checkmate, draw on
stalemate, absent otherwise. -/
theorem C2_validateGameState_derived_flags :
    ∀ (b : Board) (color : PieceColor),
      (validateGameState b color).isCheckmate
          = ((validateGameState b color).isInCheck && (validateGameState b color).legalMoves.length == 0) ∧
      (validateGameState b color).isStalemate
          = (!(validateGameState b color).isInCheck && (validateGameState b color).legalMoves.length == 0) ∧
      (validateGameState b color).gameOver
          = ((validateGameState b color).isCheckmate || (validateGameState b color).isStalemate) ∧
      ((validateGameState b color).isCheckmate && (validateGameState b color).isStalemate) = false ∧
      (validateGameState b color).winner
          = (if (validateGameState b color).isCheckmate then some (GameWinner.color (oppositeColor color))
             else if (validateGameState b color).isStalemate then some GameWinner.draw
             else none) := by
  intro b color
  refine ⟨rfl, rfl, rfl, ?_, ?_⟩
  · simp only [validateGameState]
    cases isInCheck b color <;> simp
  · simp only [validateGameState]
    cases color <;> rfl

/-- C3 counterexample: on `mateBoard`, White is in check and has zero legal
moves (the claim's conditions for checkmate hold), yet the exported
`isCheckmate` returns `false`, because it tests the *pseudo-legal* move list
`getAllValidMoves`, which still contains the king's self-check moves. -/
theorem C3_counterexample_checkmate_missed :
    isInCheck mateBoard PieceColor.white = true ∧
    getAllLegalMoves mateBoard PieceColor.white = [] ∧
    isCheckmate mateBoard PieceColor.white = false := by
  decide

/-- C3 (amended): `isCheckmate` returns true iff the color is in check and
has zero **pseudo-legal** moves (`getAllValidMoves`), and `isStalemate`
returns true iff it is not in check and has zero pseudo-legal moves. -/
theorem C3_mate_flags_use_pseudo_legal_moves :
    ∀ (b : Board) (color : PieceColor),
      isCheckmate b color = (isInCheck b color && (getAllValidMoves b color).length == 0) ∧
      isStalemate b color = (!isInCheck b color && (getAllValidMoves b color).length == 0) := by
  intro b color
  constructor
  · simp only [isCheckmate]
    cases isInCheck b color <;> simp
  · simp only [isStalemate]
    cases isInCheck b color <;> simp

/-- C4 counterexample: `makeMove` mutates the shared piece object, so after
`makeMove(initializeBoard, "e2", "e4")` the caller's view of the *input*
board differs from the original (its e2 pawn now reads `position = "e4"`,
`hasMoved = true`). -/
theorem C4_counterexample_makeMove_mutates_input :
    (makeMove initializeBoard "e2" "e4").inputAfter ≠ initializeBoard := by
  decide

/-- C4 (amended): `simulateMove` builds its result from copied rows and a
spread-copied piece, leaving the input unchanged (it is modelled as a pure
function with no write to shared state), but `makeMove` mutates the moved
piece object in place: afterwards the input board is unchanged at every
square except the source square, whose piece — when present — is observed
with `position` set to the destination and `hasMoved = true`; with no piece
at the source square the input is unchanged. -/
theorem C4_makeMove_input_aliasing :
    ∀ (b : Board) (fromSq toSq : String),
      (∀ r c : Nat, ¬(r = (positionToCoords fromSq).1 ∧ c = (positionToCoords fromSq).2) →
        cellN (makeMove b fromSq toSq).inputAfter r c = cellN b r c) ∧
      (∀ p, cellN b (positionToCoords fromSq).1 (positionToCoords fromSq).2 = some p →
        cellN (makeMove b fromSq toSq).inputAfter (positionToCoords fromSq).1 (positionToCoords fromSq).2
          = some { p with position := toSq, hasMoved := true }) ∧
      (cellN b (positionToCoords fromSq).1 (positionToCoords fromSq).2 = none →
        (makeMove b fromSq toSq).inputAfter = b) := by
  intro b fromSq toSq
  refine ⟨?_, ?_, ?_⟩
  · intro r c h
    simp only [makeMove]
    split
    · exact cellN_setCell_ne b _ _ r c _ h
    · rfl
  · intro p hp
    simp only [makeMove]
    split
    · rename_i p' hq
      have hb := cellN_some_bounds hp
      have hpp : p' = p := by
        rw [hp] at hq
        exact ((Option.some.injEq _ _).mp hq).symm
      subst hpp
      exact cellN_setCell_self b _ _ _ hb.1 hb.2
    · rename_i hq
      rw [hp] at hq
      simp at hq
  · intro hnone
    simp only [makeMove]
    split
    · rename_i p hq
      rw [hnone] at hq
      simp at hq
    · rfl

/-- C4 witness: the aliasing theorem applied at the starting board for the
move e2→e4, at the untouched square a8. -/
theorem C4_witness_untouched_square :
    cellN (makeMove initializeBoard "e2" "e4").inputAfter 0 0 = cellN initializeBoard 0 0 :=
  (C4_makeMove_input_aliasing initializeBoard "e2" "e4").1 0 0 (by decide)

/-- C8: on any board holding no king of the given color — however malformed —
`isInCheck` returns `false` ("not in check"); totality is by construction of
the embedding (the source returns early instead of faulting). -/
theorem C8_missing_king_reports_not_in_check :
    ∀ (b : Board) (color : PieceColor),
      (∀ r c p, cellN b r c = some p → p.type = PieceType.king → p.color ≠ color) →
      isInCheck b color = false := by
  intro b color h
  have hfind : ∀ row : Nat, (([0, 1, 2, 3, 4, 5, 6, 7] : List Nat).find? fun col =>
      match cellN b row col with
      | some p => p.type == PieceType.king && p.color == color
      | none => false) = none := by
    intro row
    rw [List.find?_eq_none]
    intro col _
    rcases hc : cellN b row col with _ | p
    · simp
    · intro hx
      have hx' : (p.type == PieceType.king && p.color == color) = true := hx
      rw [Bool.and_eq_true, beq_iff_eq, beq_iff_eq] at hx'
      exact h row col p hc hx'.1 hx'.2
  have hks : findKingSquare b color = none := by
    simp only [findKingSquare]
    rw [show List.range 8 = [0, 1, 2, 3, 4, 5, 6, 7] from rfl]
    simp only [List.foldl_cons, List.foldl_nil]
    rw [hfind 0, hfind 1, hfind 2, hfind 3, hfind 4, hfind 5, hfind 6, hfind 7]
  simp [isInCheck, hks]

/-- C8 witness: the empty (0×0, maximally malformed) board has no White king,
and the theorem reports "not in check" there. -/
theorem C8_witness_empty_board :
    isInCheck ([] : Board) PieceColor.white = false :=
  C8_missing_king_reports_not_in_check [] PieceColor.white
    (fun _ _ _ hcell => Option.noConfusion hcell)

/-- C10 counterexample: `"g2-g4-g4"` is a "from-to" string with two
separators (malformed per the claim), yet `openaiChessService.ts`'s
`createMoveFromNotation` returns a non-null `Move` for it on the starting
board (its only rejection test is `!from || !to` on the first two `split`
components). -/
theorem C10_counterexample_two_separators_accepted :
    (OpenaiChessService.createMoveFromNotationString "g2-g4-g4" initializeBoard).isSome = true := by
  decide

/-- C10 (amended): the `secureOpenaiService.ts` version of
`createMoveFromNotation` returns the `null` sentinel on every malformed
notation — a split-on-`'-'` component count other than two, or either square
failing `/^[a-h][1-8]$/` — and, being read-only on the board, never mutates
it; the `openaiChessService.ts` version does not satisfy this (see the
counterexample). -/
theorem C10_secure_malformed_notation_yields_none :
    ∀ (nstr : String) (b : Board),
      ((jsSplitDash nstr).length ≠ 2 ∨
        squareNotationValid ((jsSplitDash nstr).getD 0 "") = false ∨
        squareNotationValid ((jsSplitDash nstr).getD 1 "") = false) →
      SecureOpenaiService.createMoveFromNotationString nstr b = none := by
  intro nstr b h
  simp only [SecureOpenaiService.createMoveFromNotationString]
  rcases h with h | h | h
  · rw [if_pos h]
  · by_cases hlen : (jsSplitDash nstr).length ≠ 2
    · rw [if_pos hlen]
    · rw [if_neg hlen]
      rw [List.getD_eq_getElem?_getD] at h
      simp [h]
  · by_cases hlen : (jsSplitDash nstr).length ≠ 2
    · rw [if_pos hlen]
    · rw [if_neg hlen]
      rw [List.getD_eq_getElem?_getD] at h
      simp [h]

/-- C10 witness: `"e9-e4"` (rank digit out of range) is rejected by the
secure parser on the starting board. -/
theorem C10_witness_bad_rank_rejected :
    SecureOpenaiService.createMoveFromNotationString "e9-e4" initializeBoard = none :=
  C10_secure_malformed_notation_yields_none "e9-e4" initializeBoard (by decide)

/-- C9: `canCastle(board, color, side)` returns true iff a king-typed piece
with `hasMoved = false` sits on the home square (e1/e8), a rook-typed piece
with `hasMoved = false` sits on the relevant corner, and every square
strictly between them on the back rank is empty; no attacked-square
condition is involved. -/
theorem C9_canCastle_iff :
    ∀ (b : Board) (color : PieceColor) (side : CastleSide),
      canCastle b color side = true ↔
        ((∃ k, cellN b (if color = PieceColor.white then 7 else 0) 4 = some k ∧
            k.type = PieceType.king ∧ k.hasMoved = false) ∧
         (match side with
          | CastleSide.kingside =>
            (∃ rk, cellN b (if color = PieceColor.white then 7 else 0) 7 = some rk ∧
                rk.type = PieceType.rook ∧ rk.hasMoved = false) ∧
            cellN b (if color = PieceColor.white then 7 else 0) 5 = none ∧
            cellN b (if color = PieceColor.white then 7 else 0) 6 = none
          | CastleSide.queenside =>
            (∃ rk, cellN b (if color = PieceColor.white then 7 else 0) 0 = some rk ∧
                rk.type = PieceType.rook ∧ rk.hasMoved = false) ∧
            cellN b (if color = PieceColor.white then 7 else 0) 1 = none ∧
            cellN b (if color = PieceColor.white then 7 else 0) 2 = none ∧
            cellN b (if color = PieceColor.white then 7 else 0) 3 = none)) := by
  intro b color side
  simp only [canCastle]
  generalize (if color = PieceColor.white then (7 : Nat) else 0) = row
  cases side
  · rcases h4 : cellN b row 4 with _ | k
    · simp
    · rcases h7 : cellN b row 7 with _ | rk
      · simp
      · rcases h5 : cellN b row 5 with _ | p5 <;> rcases h6 : cellN b row 6 with _ | p6 <;>
          by_cases ht : k.type = PieceType.king <;> by_cases hkm : k.hasMoved = true <;>
          by_cases hrt : rk.type = PieceType.rook <;> by_cases hrm : rk.hasMoved = true <;>
          simp [bne, beq_iff_eq, ht, hkm, hrt, hrm]
  · rcases h4 : cellN b row 4 with _ | k
    · simp
    · rcases h0 : cellN b row 0 with _ | rk
      · simp
      · rcases h1 : cellN b row 1 with _ | p1 <;> rcases h2 : cellN b row 2 with _ | p2 <;>
          rcases h3 : cellN b row 3 with _ | p3 <;>
          by_cases ht : k.type = PieceType.king <;> by_cases hkm : k.hasMoved = true <;>
          by_cases hrt : rk.type = PieceType.rook <;> by_cases hrm : rk.hasMoved = true <;>
          simp [bne, beq_iff_eq, ht, hkm, hrt, hrm]

/-- C9 witness: the iff applied on `castleBoard` for White kingside. -/
theorem C9_witness_kingside_available :
    canCastle castleBoard PieceColor.white CastleSide.kingside = true :=
  (C9_canCastle_iff castleBoard PieceColor.white CastleSide.kingside).mpr
    ⟨⟨⟨PieceType.king, PieceColor.white, "e1", false⟩, by decide, rfl, rfl⟩,
     ⟨⟨PieceType.rook, PieceColor.white, "h1", false⟩, by decide, rfl, rfl⟩,
     by decide, by decide⟩

/-- C1: a `"from-to"` move string over on-board squares lies in
`getAllLegalMoves(B, C)` iff the from square holds a piece of color `C` and
`isLegalMove(B, from, to, C)` is true; and `isLegalMove` itself is the
conjunction of pseudo-legality (`isValidMove`) with the simulated position
not leaving `C`'s king in check. -/
theorem C1_getAllLegalMoves_iff :
    ∀ (b : Board) (color : PieceColor) (fr fc tr tc : Nat),
      fr < 8 → fc < 8 → tr < 8 → tc < 8 →
      (((coordsToPosition fr fc ++ "-" ++ coordsToPosition tr tc) ∈ getAllLegalMoves b color ↔
          (∃ p, cellN b fr fc = some p ∧ p.color = color) ∧
          isLegalMove b (coordsToPosition fr fc) (coordsToPosition tr tc) color = true) ∧
        isLegalMove b (coordsToPosition fr fc) (coordsToPosition tr tc) color
          = (isValidMove b (coordsToPosition fr fc) (coordsToPosition tr tc) &&
             !isInCheck (simulateMove b (coordsToPosition fr fc) (coordsToPosition tr tc)) color)) := by
  intro b color fr fc tr tc hfr hfc htr htc
  constructor
  · constructor
    · intro hmem
      have hm := (mem_moves_loops b color (fun f t => isLegalMove b f t color) _).mp hmem
      obtain ⟨fr', fc', tr', tc', h1, h2, h3, h4, hp, hk, hs⟩ := hm
      obtain ⟨e1, e2, e3, e4⟩ := moveString_inj hfr hfc htr htc h1 h2 h3 h4 hs
      subst e1; subst e2; subst e3; subst e4
      exact ⟨hp, hk⟩
    · rintro ⟨hp, hk⟩
      exact (mem_moves_loops b color (fun f t => isLegalMove b f t color) _).mpr
        ⟨fr, fc, tr, tc, hfr, hfc, htr, htc, hp, hk, rfl⟩
  · simp only [isLegalMove]
    cases hv : isValidMove b (coordsToPosition fr fc) (coordsToPosition tr tc) <;>
      cases hc : isInCheck (simulateMove b (coordsToPosition fr fc) (coordsToPosition tr tc)) color <;>
      simp

/-- C1 witness: e2→e3 (coordinates (6,4)→(5,4)) is produced for White on the
starting board via the backward direction of the iff. -/
theorem C1_witness_pawn_push_member :
    (coordsToPosition 6 4 ++ "-" ++ coordsToPosition 5 4) ∈
      getAllLegalMoves initializeBoard PieceColor.white :=
  ((C1_getAllLegalMoves_iff initializeBoard PieceColor.white 6 4 5 4
      (by decide) (by decide) (by decide) (by decide)).1).mpr
    ⟨⟨⟨PieceType.pawn, PieceColor.white, "e2", false⟩, by decide, rfl⟩, by decide⟩

/-- C6: every move of `getAllLegalMoves` is in the pseudo-legal list
`getAllValidMoves` handed to the move-recommendation service, and on
`mateBoard` the inclusion is strict: `"h1-g1"` is pseudo-legal but its
simulation leaves White's own king in check. -/
theorem C6_legal_subset_of_pseudo_legal :
    (∀ (b : Board) (color : PieceColor) (s : String),
        s ∈ getAllLegalMoves b color → s ∈ getAllValidMoves b color) ∧
      ("h1-g1" ∈ getAllValidMoves mateBoard PieceColor.white ∧
       "h1-g1" ∉ getAllLegalMoves mateBoard PieceColor.white ∧
       isInCheck (simulateMove mateBoard "h1" "g1") PieceColor.white = true) := by
  constructor
  · intro b color s hmem
    have hm := (mem_moves_loops b color (fun f t => isLegalMove b f t color) s).mp hmem
    obtain ⟨fr, fc, tr, tc, h1, h2, h3, h4, hp, hk, hs⟩ := hm
    refine (mem_moves_loops b color (fun f t => isValidMove b f t) s).mpr
      ⟨fr, fc, tr, tc, h1, h2, h3, h4, hp, ?_, hs⟩
    have hlegal : isLegalMove b (coordsToPosition fr fc) (coordsToPosition tr tc) color = true := hk
    simp only [isLegalMove] at hlegal
    by_cases hv : isValidMove b (coordsToPosition fr fc) (coordsToPosition tr tc) = true
    · exact hv
    · exfalso
      rw [Bool.not_eq_true] at hv
      rw [hv] at hlegal
      simp at hlegal
  · exact ⟨by decide, by decide, by decide⟩

/-- C6 witness: the subset direction applied to a concrete legal move on the
starting board. -/
theorem C6_witness_subset_at_g2g3 :
    "g2-g3" ∈ getAllValidMoves initializeBoard PieceColor.white :=
  C6_legal_subset_of_pseudo_legal.1 initializeBoard PieceColor.white "g2-g3" (by decide)

/-- C5 counterexample: on `notInCheckBoard` White is not in check, and the
urgentMoves list computed as `analyzeTacticalSituation` does differs from
`getAllLegalMoves`: it keeps the pseudo-legal king moves a1→b1 and a1→b2
that move into the b8-rook's file. -/
theorem C5_counterexample_urgent_differs_when_not_in_check :
    calculateUrgentMoves notInCheckBoard PieceColor.white
        (isInCheck notInCheckBoard PieceColor.white)
        (findCheckingPieces notInCheckBoard PieceColor.white)
      ≠ getAllLegalMoves notInCheckBoard PieceColor.white := by
  decide

/-- C5 (amended): the urgentMoves list computed by `analyzeTacticalSituation`
equals `getAllLegalMoves(board, color)` when the side is in check, but equals
the **pseudo-legal** list `getAllValidMoves(board, color)` when it is not in
check (the not-in-check branch applies no self-check filtering). -/
theorem C5_urgentMoves_legal_when_checked_pseudo_otherwise :
    ∀ (b : Board) (color : PieceColor),
      calculateUrgentMoves b color (isInCheck b color) (findCheckingPieces b color)
        = if isInCheck b color then getAllLegalMoves b color
          else getAllValidMoves b color := by
  intro b color
  cases hchk : isInCheck b color
  · rfl
  · exact urgent_loops_eq_legal b color

end GrandChess
